import Mathlib

/-!
Verification development for the `env-type-generator` core
(`src/env_type_generator/validation.py` and `src/env_type_generator/config.py`).

The Python code is shallowly embedded: pure Python functions become Lean
functions over `String`/`List`, Python dicts become insertion-ordered
association lists, and fallible parsing returns `Except String PyValue`.
Python's built-in `float(str)` conversion is modelled by an executable
recognizer (`pyFloatAccepts`): CPython's decimal-digit-and-space-to-ASCII
transform (`pyTransformDecimal`, mapping Unicode decimal digits to ASCII
digits and Unicode whitespace to a space, everything else non-ASCII to an
always-failing `'?'`) followed by the ASCII-level grammar (optional
surrounding whitespace, optional sign, `inf`/`infinity`/`nan`
case-insensitively, or a decimal literal with optional single underscores
between digits and an optional exponent), together with a declarative
grammar (`FloatLit`) proved equivalent to the ASCII-level recognizer.
`json.loads` is an external library call; it is abstracted as a parameter
`jsonOk : String → Bool` wherever the embedded code needs it.
-/

namespace EnvTypeGen

/-! ### Characters and Python string primitives -/

/-- ASCII whitespace recognized by Python's `str.strip()` / `float(str)`. -/
def isWs (c : Char) : Bool :=
  c = ' ' || c = '\t' || c = '\n' || c = '\r' || c = '\x0b' || c = '\x0c'

/-- ASCII case folding of one character, as done by `str.lower` on ASCII. -/
def lowerChar (c : Char) : Char :=
  if 'A' ≤ c ∧ c ≤ 'Z' then Char.ofNat (c.toNat + 32) else c

/-- Python `str.lower()` (ASCII fragment). -/
def pyLower (s : String) : String := ⟨s.data.map lowerChar⟩

/-- Python `str.strip()` on a character list: whitespace removed from both ends. -/
def stripWs (l : List Char) : List Char :=
  ((l.dropWhile isWs).reverse.dropWhile isWs).reverse

/-- One dropped leading ASCII sign character, as in `float(str)`. -/
def dropSign : List Char → List Char
  | [] => []
  | c :: r => if c = '+' ∨ c = '-' then r else c :: r

/-- Start codepoints of the 65 runs of Unicode decimal digits (category
`Nd`, the characters for which CPython's `Py_UNICODE_TODECIMAL` is
defined), extracted from the Unicode character database; each run is ten
consecutive codepoints carrying the values 0 through 9. -/
def ndRunStarts : List Nat :=
  [0x660, 0x6F0, 0x7C0, 0x966, 0x9E6, 0xA66, 0xAE6, 0xB66, 0xBE6, 0xC66,
   0xCE6, 0xD66, 0xDE6, 0xE50, 0xED0, 0xF20, 0x1040, 0x1090, 0x17E0, 0x1810,
   0x1946, 0x19D0, 0x1A80, 0x1A90, 0x1B50, 0x1BB0, 0x1C40, 0x1C50, 0xA620,
   0xA8D0, 0xA900, 0xA9D0, 0xA9F0, 0xAA50, 0xABF0, 0xFF10, 0x104A0, 0x10D30,
   0x11066, 0x110F0, 0x11136, 0x111D0, 0x112F0, 0x11450, 0x114D0, 0x11650,
   0x116C0, 0x11730, 0x118E0, 0x11950, 0x11C50, 0x11D50, 0x11DA0, 0x16A60,
   0x16AC0, 0x16B50, 0x1D7CE, 0x1D7D8, 0x1D7E2, 0x1D7EC, 0x1D7F6, 0x1E140,
   0x1E2F0, 0x1E950, 0x1FBF0]

/-- Codepoints at or above 127 that Python treats as whitespace
(`Py_UNICODE_ISSPACE`). -/
def uniSpaceCodes : List Nat :=
  [0x85, 0xA0, 0x1680, 0x2000, 0x2001, 0x2002, 0x2003, 0x2004, 0x2005,
   0x2006, 0x2007, 0x2008, 0x2009, 0x200A, 0x2028, 0x2029, 0x202F, 0x205F,
   0x3000]

/-- One character of CPython's decimal-digit-and-space transform
(`_PyUnicode_TransformDecimalAndSpaceToASCII`, applied by `float(str)`
before its ASCII-level parse): codepoints below 127 pass through, Unicode
whitespace becomes a space, a Unicode decimal digit becomes the ASCII digit
of the same value, and any other non-ASCII character becomes `'?'` (which
never occurs in a float literal, so the subsequent parse fails). -/
def pyToAscii (c : Char) : Char :=
  if c.toNat < 127 then c
  else if c.toNat ∈ uniSpaceCodes then ' '
  else
    match ndRunStarts.find? (fun s => s ≤ c.toNat && c.toNat < s + 10) with
    | some s => Char.ofNat (48 + (c.toNat - s))
    | none => '?'

/-- The decimal-digit-and-space-to-ASCII transform `float(str)` applies to
its whole argument before parsing. -/
def pyTransformDecimal (s : String) : String := ⟨s.data.map pyToAscii⟩

/-! ### The digit-run scanner of `float(str)`

`digTail` consumes a maximal `(digit | '_' digit)*` run (an underscore is
only consumed when it sits directly between two digits); `digRun` consumes
a maximal `digit (['_'] digit)*` run.  Both return the consumed prefix and
the remaining input. -/

def digTail : List Char → List Char × List Char
  | [] => ([], [])
  | c :: cs =>
    if c.isDigit then
      let p := digTail cs
      (c :: p.1, p.2)
    else if c = '_' then
      match cs with
      | [] => ([], ['_'])
      | c' :: cs' =>
        if c'.isDigit then
          let p := digTail cs'
          ('_' :: c' :: p.1, p.2)
        else ([], '_' :: c' :: cs')
    else ([], c :: cs)

def digRun : List Char → List Char × List Char
  | [] => ([], [])
  | c :: cs =>
    if c.isDigit then
      let p := digTail cs
      (c :: p.1, p.2)
    else ([], c :: cs)

/-- Exponent clause of the float grammar: empty, or `e`/`E`, an optional
sign, and a nonempty digit run consuming the whole rest. -/
def expPart : List Char → Bool
  | [] => true
  | c :: rest =>
    (c = 'e' || c = 'E') &&
      (let q := digRun (dropSign rest)
       !q.1.isEmpty && q.2.isEmpty)

/-- Mantissa-plus-exponent clause of the float grammar (no sign, no
whitespace): `digits [. [digits]] [exp]` or `. digits [exp]`. -/
def floatBody (l : List Char) : Bool :=
  let p := digRun l
  match p.2 with
  | '.' :: r₂ =>
    let q := digRun r₂
    (!p.1.isEmpty || !q.1.isEmpty) && expPart q.2
  | r₁ => !p.1.isEmpty && expPart r₁

/-- Acceptance of `float(str)` after whitespace stripping: an optional sign,
then case-insensitive `inf`/`infinity`/`nan` or a numeric body. -/
def pyFloatCore (t : List Char) : Bool :=
  let t' := dropSign t
  let low := t'.map lowerChar
  decide (low = "inf".data) || decide (low = "infinity".data) ||
    decide (low = "nan".data) || floatBody t'

/-- Acceptance of the ASCII-level parse of `float(str)`
(`PyOS_string_to_double`, run after the transform). -/
def pyFloatAsciiAccepts (s : String) : Bool := pyFloatCore (stripWs s.data)

/-- Whether Python's `float(raw)` succeeds: the decimal-digit-and-space
transform followed by the ASCII-level parse. -/
def pyFloatAccepts (s : String) : Bool :=
  pyFloatAsciiAccepts (pyTransformDecimal s)

/-! ### Declarative grammar of float literals -/

/-- Declarative form of the tail of a digit run: `(digit | '_' digit)*`,
underscores standing strictly between digits. -/
inductive DigTailG : List Char → Prop
  | nil : DigTailG []
  | dig (c : Char) (l : List Char) : c.isDigit = true → DigTailG l → DigTailG (c :: l)
  | und (c : Char) (l : List Char) : c.isDigit = true → DigTailG l → DigTailG ('_' :: c :: l)

/-- A nonempty digit run `digit (['_'] digit)*`. -/
def DigRunG (l : List Char) : Prop :=
  ∃ c t, l = c :: t ∧ c.isDigit = true ∧ DigTailG t

/-- A possibly-empty digit run. -/
def OptDigRunG (l : List Char) : Prop := l = [] ∨ DigRunG l

/-- Mantissa of a float literal: a digit run, or integer and fractional
digit runs around a dot, not both empty. -/
def MantissaG (l : List Char) : Prop :=
  DigRunG l ∨
    ∃ a b, l = a ++ '.' :: b ∧ OptDigRunG a ∧ OptDigRunG b ∧ ¬(a = [] ∧ b = [])

/-- Exponent of a float literal: empty, or `e`/`E` with optional sign and a
nonempty digit run. -/
def ExpG (l : List Char) : Prop :=
  l = [] ∨
    ∃ (e : Char) (s d : List Char),
      (e = 'e' ∨ e = 'E') ∧ (s = [] ∨ s = ['+'] ∨ s = ['-']) ∧ DigRunG d ∧
        l = e :: (s ++ d)

/-- Numeric body of a float literal: mantissa followed by exponent. -/
def NumLitG (l : List Char) : Prop := ∃ m x, MantissaG m ∧ ExpG x ∧ l = m ++ x

/-- The special float spellings accepted case-insensitively. -/
def SpecialG (l : List Char) : Prop :=
  l.map lowerChar = "inf".data ∨ l.map lowerChar = "infinity".data ∨
    l.map lowerChar = "nan".data

/-- An optional ASCII sign. -/
def SignG (s : List Char) : Prop := s = [] ∨ s = ['+'] ∨ s = ['-']

/-- Declarative statement that `s` is an accepted floating-point literal:
optional whitespace on both ends, an optional sign, and either a special
spelling or a numeric body. -/
def FloatLit (s : String) : Prop :=
  ∃ w₁ sgn body w₂,
    (∀ c ∈ w₁, isWs c = true) ∧ SignG sgn ∧ (SpecialG body ∨ NumLitG body) ∧
      (∀ c ∈ w₂, isWs c = true) ∧ s.data = w₁ ++ sgn ++ body ++ w₂

/-! ### Python dicts

Insertion-ordered association lists with unique keys, mirroring the
behaviour of Python `dict`: assigning to an existing key overwrites it in
place, a fresh key is appended at the end. -/

/-- A Python dict with `String` keys, as an insertion-ordered entry list. -/
abbrev Dict (α : Type) := List (String × α)

/-- Assignment `d[k] = v` on a Python dict. -/
def dictInsert (d : Dict α) (k : String) (v : α) : Dict α :=
  if d.any (fun p => p.1 == k) then
    d.map (fun p => if p.1 == k then (k, v) else p)
  else d ++ [(k, v)]

/-- Lookup `d.get(k)` on a Python dict (`None` when the key is absent). -/
def dictGet? (d : Dict α) (k : String) : Option α :=
  (d.find? (fun p => p.1 == k)).map (fun p => p.2)

/-- Lookup `d.get(k, dflt)` on a Python dict. -/
def dictGetD (d : Dict α) (k : String) (dflt : α) : α :=
  (dictGet? d k).getD dflt

/-- The key list `list(d.keys())` of a Python dict. -/
def dictKeys (d : Dict α) : List String := d.map (fun p => p.1)

/-- Python's `sorted` on strings: lexicographic by code point, ascending.
`List.insertionSort` over Mathlib's `LinearOrder String` matches that
order. -/
def pySorted (l : List String) : List String := List.insertionSort (· ≤ ·) l

/-! ### Data model (`config.py`) -/

/-- The closed set `SUPPORTED_TYPES` of `config.py`. -/
def SUPPORTED_TYPES : List String :=
  ["string", "number", "boolean", "enum", "url", "duration", "json"]

/-- The `VariableDefinition` dataclass of `config.py`.  `default` is `Optional[Any]` in
the source; only its raw text and its `None`-ness are ever consulted, so it
is embedded as `Option String`. -/
structure VariableDefinition where
  name : String
  type : String
  required : Bool := true
  default : Option String := none
  description : Option String := none
  secret : Bool := false
  deprecated : Bool := false
  enum : Option (List String) := none
deriving Repr, DecidableEq

/-- The `TargetDefinition` dataclass of `config.py`. -/
structure TargetDefinition where
  language : String
  out_dir : String
deriving Repr, DecidableEq

/-- The `Config` dataclass of `config.py`; `environments` is a Python dict. -/
structure Config where
  schema_version : String
  environments : Dict (List VariableDefinition)
  targets : List TargetDefinition

/-! ### Type coercion engine (`validation.py`) -/

/-- Result of `_parse_value`.  Python floats and parsed JSON structures are
identified by the raw text they were parsed from; no claim consults their
numeric or structural value. -/
inductive PyValue where
  | vstr : String → PyValue
  | vnum : String → PyValue
  | vbool : Bool → PyValue
  | vjson : String → PyValue
deriving Repr, DecidableEq

/-- Function `_parse_bool` of `validation.py`:
`value.lower() in {"true", "1", "yes", "y", "on"}`. -/
def _parse_bool (value : String) : Bool :=
  (pyLower value) ∈ (["true", "1", "yes", "y", "on"] : List String)

/-- Python's `repr` of a list of strings, as interpolated into the enum
error message (quote escaping inside the members is not modelled). -/
def pyListRepr (l : List String) : String :=
  "[" ++ (String.intercalate ", " (l.map (fun s => "'" ++ (s ++ "'")))) ++ "]"

/-- The `ValueError` text raised by the enum branch of `_parse_value`. -/
def enumErrMsg (value : String) (es : List String) : String :=
  "Value '" ++ (value ++ ("' not allowed; expected one of " ++ (pyListRepr es ++ ".")))

/-- The `ValueError` text raised by Python's `float` builtin. -/
def floatErrMsg (value : String) : String :=
  "could not convert string to float: '" ++ (value ++ "'")

/-- The guard `definition.enum and value not in definition.enum` of the
enum branch (a `None` or empty enum list is falsy in Python). -/
def enumRejects (enum : Option (List String)) (value : String) : Bool :=
  match enum with
  | none => false
  | some l => !l.isEmpty && !l.contains value

/-- Python `value.endswith("s")`. -/
def endsWithS (value : String) : Bool := value.data.getLast? == some 's'

/-- Python `value[:-1]`. -/
def strDropLast (value : String) : String := ⟨value.data.dropLast⟩

/-- Python `value.startswith(pre)`. -/
def startsWithLit (pre value : String) : Bool := pre.data.isPrefixOf value.data

/-- Function `_parse_value` of `validation.py`.  `jsonOk` abstracts the external
`json.loads` call (`true` = parses without `JSONDecodeError`). -/
def _parse_value (jsonOk : String → Bool) (value : String)
    (definition : VariableDefinition) : Except String PyValue :=
  if definition.type = "string" then .ok (.vstr value)
  else if definition.type = "number" then
    (if pyFloatAccepts value then .ok (.vnum value) else .error (floatErrMsg value))
  else if definition.type = "boolean" then .ok (.vbool (_parse_bool value))
  else if definition.type = "enum" then
    (if enumRejects definition.enum value then
      .error (enumErrMsg value (definition.enum.getD []))
    else .ok (.vstr value))
  else if definition.type = "url" then
    (if startsWithLit "http://" value || startsWithLit "https://" value then
      .ok (.vstr value)
    else .error "URL must start with http:// or https://")
  else if definition.type = "duration" then
    (if endsWithS value then
      (if pyFloatAccepts (strDropLast value) then .ok (.vnum (strDropLast value))
       else .error (floatErrMsg (strDropLast value)))
    else
      (if pyFloatAccepts value then .ok (.vnum value)
       else .error (floatErrMsg value)))
  else if definition.type = "json" then
    (if jsonOk value then .ok (.vjson value) else .error "Expecting value")
  else .ok (.vstr value)

/-! ### Environment validator (`validate_env`)

`validate_env` in the source reads the provided mapping from a `.env` file
(`load_env_file`, I/O); the embedding receives that mapping directly as a
`Dict String` and keeps the file path as an opaque string used only inside
the error messages. -/

/-- The shared message prefix `"[" + env_name + "] "` of the validator. -/
def envPre (envName : String) : String := "[" ++ (envName ++ "] ")

/-- Message `f"[{env_name}] missing required variable '{name}' in {env_file}"`. -/
def missingMsg (envName name envFile : String) : String :=
  envPre envName ++ ("missing required variable '" ++ (name ++ ("' in " ++ envFile)))

/-- Message `f"[{env_name}] variable '{name}' invalid: {exc}"`. -/
def invalidMsg (envName name exc : String) : String :=
  envPre envName ++ ("variable '" ++ (name ++ ("' invalid: " ++ exc)))

/-- Message `f"[{env_name}] extra variable '{name}' present in {env_file}"`. -/
def extraMsg (envName name envFile : String) : String :=
  envPre envName ++ ("extra variable '" ++ (name ++ ("' present in " ++ envFile)))

/-- The dict comprehension over `config.environments.get(env_name, [])`
building the `declared` / `left` / `right` dicts keyed by variable name. -/
def dictOfVars (vs : List VariableDefinition) : Dict VariableDefinition :=
  vs.foldl (fun d v => dictInsert d v.name v) []

/-- The body of the first loop of `validate_env`, for one entry of the
`declared` dict: a missing-required error, an invalid-value error, or
nothing. -/
def declaredEntryErrors (jsonOk : String → Bool) (envName envFile : String)
    (provided : Dict String) (e : String × VariableDefinition) : List String :=
  match dictGet? provided e.1 with
  | none =>
    if e.2.required ∧ e.2.default = none then [missingMsg envName e.1 envFile]
    else []
  | some raw =>
    match _parse_value jsonOk raw e.2 with
    | .error exc => [invalidMsg envName e.1 exc]
    | .ok _ => []

/-- Function `validate_env` of `validation.py` (with the provided mapping passed in
place of the `.env` file contents). -/
def validate_env (jsonOk : String → Bool) (config : Config)
    (envName envFile : String) (provided : Dict String) : List String :=
  let declared := dictOfVars (dictGetD config.environments envName [])
  (declared.flatMap (declaredEntryErrors jsonOk envName envFile provided)) ++
    (pySorted (((dictKeys provided).dedup).filter
        (fun k => decide (k ∉ dictKeys declared)))).map
      (fun k => extraMsg envName k envFile)

/-! ### Schema validator (`Config.validate`, `validate_schema`) -/

/-- Unsupported-type message of `VariableDefinition.validate`. -/
def unsupportedMsg (envName name ty : String) : String :=
  envPre envName ++ ("variable '" ++ (name ++ ("' uses unsupported type '" ++ (ty ++ "'."))))

/-- Empty-enum message of `VariableDefinition.validate`. -/
def enumEmptyMsg (envName name : String) : String :=
  envPre envName ++ ("variable '" ++ (name ++ "' is enum but enum values are empty."))

/-- Required-with-default message of `VariableDefinition.validate`. -/
def reqDefaultMsg (envName name : String) : String :=
  envPre envName ++
    ("variable '" ++ (name ++ "' is marked required but also provides a default; choose one."))

/-- Duplicate-name message of `Config.validate`. -/
def dupMsg (envName name : String) : String :=
  envPre envName ++ ("variable '" ++ (name ++ "' is declared more than once."))

/-- Python truthiness test `not self.enum` for `enum : Optional[List[str]]`. -/
def enumFalsy (enum : Option (List String)) : Bool :=
  match enum with
  | none => true
  | some l => l.isEmpty

/-- Method `VariableDefinition.validate` of `config.py`, returning the messages it
appends to `errors`, in order. -/
def VariableDefinition.validate (v : VariableDefinition) (envName : String) :
    List String :=
  (if v.type ∉ SUPPORTED_TYPES then [unsupportedMsg envName v.name v.type] else []) ++
    (if v.type = "enum" ∧ enumFalsy v.enum then [enumEmptyMsg envName v.name] else []) ++
      (if v.default ≠ none ∧ v.required then [reqDefaultMsg envName v.name] else [])

/-- The per-environment loop of `Config.validate`, carrying the `names`
seen-set. -/
def checkVarsGo (envName : String) : List VariableDefinition → List String → List String
  | [], _ => []
  | v :: rest, seen =>
    (if v.name ∈ seen then [dupMsg envName v.name] else []) ++
      (v.validate envName ++ checkVarsGo envName rest (v.name :: seen))

/-- Method `Config.validate` of `config.py`. -/
def Config.validate (c : Config) : List String :=
  (c.environments.flatMap (fun p => checkVarsGo p.1 p.2 [])) ++
    (if c.targets.isEmpty then ["At least one generation target must be defined."] else [])

/-- Function `validate_schema` of `validation.py`: `return not errors, errors`. -/
def validate_schema (c : Config) : Bool × List String :=
  (c.validate.isEmpty, c.validate)

/-! ### Drift comparator (`diff_environments`) -/

/-- Message `f"Variable '{name}' declared in {left_env} but missing in {right_env}."`. -/
def diffMsg (name leftEnv rightEnv : String) : String :=
  "Variable '" ++
    (name ++ ("' declared in " ++ (leftEnv ++ (" but missing in " ++ (rightEnv ++ ".")))))

/-- Function `diff_environments` of `validation.py`. -/
def diff_environments (config : Config) (leftEnv rightEnv : String) : List String :=
  let left := dictOfVars (dictGetD config.environments leftEnv [])
  let right := dictOfVars (dictGetD config.environments rightEnv [])
  let missingInRight :=
    pySorted (((dictKeys left).dedup).filter (fun k => decide (k ∉ dictKeys right)))
  let missingInLeft :=
    pySorted (((dictKeys right).dedup).filter (fun k => decide (k ∉ dictKeys left)))
  missingInRight.map (fun n => diffMsg n leftEnv rightEnv) ++
    missingInLeft.map (fun n => diffMsg n rightEnv leftEnv)

/-! ### Concrete fixtures used by the witness theorems -/

/-- Fixture: a required url-typed variable. -/
def varApiUrl : VariableDefinition := { name := "API_URL", type := "url" }

/-- Fixture: an optional boolean variable carrying a default. -/
def varFeature : VariableDefinition :=
  { name := "FEATURE", type := "boolean", required := false, default := some "false" }

/-- A one-environment configuration used to instantiate general theorems. -/
def cfgFix : Config :=
  { schema_version := "0.1"
    environments :=
      [("development", [varApiUrl, varFeature]),
       ("production", [varApiUrl])]
    targets := [] }

/-- A configuration whose single variable is required and carries a default. -/
def cfgReqDefault : Config :=
  { schema_version := "0.1"
    environments :=
      [("dev",
        [{ name := "X", type := "string", required := true, default := some "x" }])]
    targets := [{ language := "python", out_dir := "generated" }] }

/-- The trivial stand-in for `json.loads` used when instantiating theorems. -/
def noJson : String → Bool := fun _ => false

/-! ## Lemmas about the digit-run scanner -/

theorem digTail_cons_digit {c : Char} (cs : List Char) (h : c.isDigit = true) :
    digTail (c :: cs) = (c :: (digTail cs).1, (digTail cs).2) := by
  conv_lhs => unfold digTail
  exact if_pos h

theorem digTail_cons_other {c : Char} (cs : List Char) (h : c.isDigit = false)
    (h' : c ≠ '_') : digTail (c :: cs) = ([], c :: cs) := by
  conv_lhs => unfold digTail
  rw [if_neg (by simp [h]), if_neg h']

theorem digTail_underscore_nil : digTail ['_'] = ([], ['_']) := by decide

theorem digTail_underscore_digit {c' : Char} (cs' : List Char)
    (h : c'.isDigit = true) :
    digTail ('_' :: c' :: cs') = ('_' :: c' :: (digTail cs').1, (digTail cs').2) := by
  conv_lhs => unfold digTail
  rw [if_neg (by decide), if_pos (by decide : ('_' : Char) = '_')]
  exact if_pos h

theorem digTail_underscore_other {c' : Char} (cs' : List Char)
    (h : c'.isDigit = false) : digTail ('_' :: c' :: cs') = ([], '_' :: c' :: cs') := by
  conv_lhs => unfold digTail
  rw [if_neg (by decide), if_pos (by decide : ('_' : Char) = '_')]
  exact if_neg (by simp [h])

theorem digTail_append_eq (l : List Char) : (digTail l).1 ++ (digTail l).2 = l := by
  induction l using digTail.induct with
  | case1 => rfl
  | case2 c cs h ih => rw [digTail_cons_digit cs h]; simpa using ih
  | case3 => rfl
  | case4 c' cs' h _ ih => rw [digTail_underscore_digit cs' h]; simpa using ih
  | case5 c' cs' h _ =>
    rw [digTail_underscore_other cs' (by simpa using h)]; rfl
  | case6 c cs h h' =>
    rw [digTail_cons_other cs (by simpa using h) h']; rfl

theorem DigTailG_digTail (l : List Char) : DigTailG (digTail l).1 := by
  induction l using digTail.induct with
  | case1 => exact DigTailG.nil
  | case2 c cs h ih => rw [digTail_cons_digit cs h]; exact DigTailG.dig c _ h ih
  | case3 => exact DigTailG.nil
  | case4 c' cs' h _ ih =>
    rw [digTail_underscore_digit cs' h]; exact DigTailG.und c' _ h ih
  | case5 c' cs' h _ =>
    rw [digTail_underscore_other cs' (by simpa using h)]; exact DigTailG.nil
  | case6 c cs h h' =>
    rw [digTail_cons_other cs (by simpa using h) h']; exact DigTailG.nil

/-- The remainder of a run cannot be continued: empty, or headed by a
character that is neither a digit nor an underscore. -/
def noDigStart (r : List Char) : Prop :=
  ∀ c cs, r = c :: cs → c.isDigit = false ∧ c ≠ '_'

theorem noDigStart_nil : noDigStart [] := by intro c cs h; cases h

theorem noDigStart_cons {c : Char} (cs : List Char) (h : c.isDigit = false)
    (h' : c ≠ '_') : noDigStart (c :: cs) := by
  intro c' cs' he
  cases he
  exact ⟨h, h'⟩

theorem digTail_complete {t : List Char} (ht : DigTailG t) :
    ∀ r, noDigStart r → digTail (t ++ r) = (t, r) := by
  induction ht with
  | nil =>
    intro r hr
    match r with
    | [] => rfl
    | c :: cs =>
      obtain ⟨h1, h2⟩ := hr c cs rfl
      simpa using digTail_cons_other cs h1 h2
  | dig c l h _ ih =>
    intro r hr
    rw [List.cons_append, digTail_cons_digit _ h, ih r hr]
  | und c l h _ ih =>
    intro r hr
    rw [List.cons_append, List.cons_append, digTail_underscore_digit _ h, ih r hr]

theorem digRun_nil : digRun [] = ([], []) := rfl

theorem digRun_cons_digit {c : Char} (cs : List Char) (h : c.isDigit = true) :
    digRun (c :: cs) = (c :: (digTail cs).1, (digTail cs).2) := by
  simp [digRun, h]

theorem digRun_cons_other {c : Char} (cs : List Char) (h : c.isDigit = false) :
    digRun (c :: cs) = ([], c :: cs) := by
  simp [digRun, h]

theorem digRun_append_eq (l : List Char) : (digRun l).1 ++ (digRun l).2 = l := by
  match l with
  | [] => rfl
  | c :: cs =>
    by_cases h : c.isDigit
    · rw [digRun_cons_digit cs h]
      simpa using digTail_append_eq cs
    · rw [digRun_cons_other cs (by simpa using h)]; rfl

theorem DigRunG_digRun {l : List Char} (h : (digRun l).1 ≠ []) :
    DigRunG (digRun l).1 := by
  match l with
  | [] => exact absurd rfl h
  | c :: cs =>
    by_cases hc : c.isDigit
    · rw [digRun_cons_digit cs hc]
      exact ⟨c, (digTail cs).1, rfl, hc, DigTailG_digTail cs⟩
    · rw [digRun_cons_other cs (by simpa using hc)] at h
      exact absurd rfl h

theorem digRun_empty_rest {l : List Char} (h : (digRun l).1 = []) :
    (digRun l).2 = l := by
  have := digRun_append_eq l
  rw [h] at this
  simpa using this

theorem digRun_complete {d : List Char} (hd : DigRunG d) {r : List Char}
    (hr : noDigStart r) : digRun (d ++ r) = (d, r) := by
  obtain ⟨c, t, rfl, hc, ht⟩ := hd
  rw [List.cons_append, digRun_cons_digit _ hc, digTail_complete ht r hr]

theorem DigRunG.ne_nil {d : List Char} (h : DigRunG d) : d ≠ [] := by
  obtain ⟨c, t, rfl, _, _⟩ := h
  simp

theorem DigRunG.isEmpty_false {d : List Char} (h : DigRunG d) : d.isEmpty = false := by
  obtain ⟨c, t, rfl, _, _⟩ := h
  rfl

theorem digit_ne {c x : Char} (h : c.isDigit = true) (hx : x.isDigit = false) :
    c ≠ x := by
  intro he
  rw [he, hx] at h
  cases h

/-! ## Lemmas about `expPart` and `floatBody` -/

theorem expPart_iff_ExpG (x : List Char) : expPart x = true ↔ ExpG x := by
  constructor
  · intro h
    match x with
    | [] => exact Or.inl rfl
    | c :: rest =>
      simp only [expPart, Bool.and_eq_true, Bool.or_eq_true, decide_eq_true_eq,
        Bool.not_eq_true', List.isEmpty_eq_false, List.isEmpty_iff] at h
      obtain ⟨hc, hne, hrest⟩ := h
      have hd : DigRunG (digRun (dropSign rest)).1 := DigRunG_digRun hne
      have happ : (digRun (dropSign rest)).1 = dropSign rest := by
        have := digRun_append_eq (dropSign rest)
        rw [hrest, List.append_nil] at this
        exact this
      refine Or.inr ?_
      match rest with
      | [] =>
        exfalso
        apply hne
        rw [happ]
        rfl
      | c₂ :: t =>
        by_cases hs : c₂ = '+' ∨ c₂ = '-'
        · have hds : dropSign (c₂ :: t) = t := if_pos hs
          rcases hs with rfl | rfl
          · exact ⟨c, ['+'], (digRun t).1, hc, by simp, by rwa [hds] at hd, by
              rw [List.singleton_append]
              congr 1
              rw [← hds, happ]⟩
          · exact ⟨c, ['-'], (digRun t).1, hc, by simp, by rwa [hds] at hd, by
              rw [List.singleton_append]
              congr 1
              rw [← hds, happ]⟩
        · have hds : dropSign (c₂ :: t) = c₂ :: t := if_neg hs
          refine ⟨c, [], (digRun (c₂ :: t)).1, hc, by simp, by rwa [hds] at hd, ?_⟩
          rw [List.nil_append]
          congr 1
          rw [← hds, happ, hds]
  · rintro (rfl | ⟨e, s, d, he, hs, hd, rfl⟩)
    · rfl
    · obtain ⟨cd, td, rfl, hcd, _⟩ := id hd
      have hds : dropSign (s ++ (cd :: td)) = cd :: td := by
        rcases hs with rfl | rfl | rfl
        · rw [List.nil_append]
          exact if_neg (by rintro (rfl | rfl) <;> simp at hcd)
        · rw [List.singleton_append]
          simp [dropSign]
        · rw [List.singleton_append]
          simp [dropSign]
      have hrun : digRun (cd :: td) = (cd :: td, []) := by
        have := digRun_complete hd noDigStart_nil
        rwa [List.append_nil] at this
      simp only [expPart, hds, hrun, Bool.and_eq_true, Bool.or_eq_true,
        decide_eq_true_eq]
      refine ⟨by tauto, by simp⟩

theorem floatBody_nil_rest {l : List Char} (h : (digRun l).2 = []) :
    floatBody l = (!(digRun l).1.isEmpty && expPart []) := by
  simp only [floatBody]
  rw [h]

theorem floatBody_dot {l r₂ : List Char} (h : (digRun l).2 = '.' :: r₂) :
    floatBody l =
      ((!(digRun l).1.isEmpty || !(digRun r₂).1.isEmpty) && expPart (digRun r₂).2) := by
  simp only [floatBody]
  rw [h]
  rfl

theorem floatBody_cons_rest {l : List Char} {c : Char} {r : List Char}
    (h : (digRun l).2 = c :: r) (hc : c ≠ '.') :
    floatBody l = (!(digRun l).1.isEmpty && expPart (c :: r)) := by
  simp only [floatBody]
  rw [h]
  split
  · rename_i r₂ heq
    exact absurd (List.cons.injEq .. ▸ heq :
      c = '.' ∧ r = r₂).1 hc
  · rfl

theorem noDigStart_of_ExpG {x : List Char} (hx : ExpG x) : noDigStart x := by
  rcases hx with rfl | ⟨e, s, d, he, _, _, rfl⟩
  · exact noDigStart_nil
  · rcases he with rfl | rfl
    · exact noDigStart_cons _ (by decide) (by decide)
    · exact noDigStart_cons _ (by decide) (by decide)

theorem NumLitG_of_floatBody {l : List Char} (h : floatBody l = true) : NumLitG l := by
  rcases hr : (digRun l).2 with _ | ⟨c, r⟩
  · rw [floatBody_nil_rest hr] at h
    simp only [Bool.and_eq_true, Bool.not_eq_true', List.isEmpty_eq_false] at h
    refine ⟨(digRun l).1, [], Or.inl (DigRunG_digRun h.1), Or.inl rfl, ?_⟩
    have := digRun_append_eq l
    rw [hr] at this
    rw [List.append_nil]
    rw [List.append_nil] at this
    exact this.symm
  · by_cases hc : c = '.'
    · subst hc
      rw [floatBody_dot hr] at h
      simp only [Bool.and_eq_true, Bool.or_eq_true, Bool.not_eq_true',
        List.isEmpty_eq_false] at h
      obtain ⟨hcond, hexp⟩ := h
      refine ⟨(digRun l).1 ++ '.' :: (digRun r).1, (digRun r).2,
        Or.inr ⟨(digRun l).1, (digRun r).1, rfl, ?_, ?_, ?_⟩,
        (expPart_iff_ExpG _).mp hexp, ?_⟩
      · by_cases ha : (digRun l).1 = []
        · exact Or.inl ha
        · exact Or.inr (DigRunG_digRun ha)
      · by_cases hb : (digRun r).1 = []
        · exact Or.inl hb
        · exact Or.inr (DigRunG_digRun hb)
      · rintro ⟨ha, hb⟩
        rcases hcond with hc1 | hc1 <;> exact hc1 (by assumption)
      · calc l = (digRun l).1 ++ (digRun l).2 := (digRun_append_eq l).symm
          _ = (digRun l).1 ++ ('.' :: r) := by rw [hr]
          _ = (digRun l).1 ++ ('.' :: ((digRun r).1 ++ (digRun r).2)) := by
            rw [digRun_append_eq r]
          _ = ((digRun l).1 ++ '.' :: (digRun r).1) ++ (digRun r).2 := by
            simp [List.append_assoc]
    · rw [floatBody_cons_rest hr hc] at h
      simp only [Bool.and_eq_true, Bool.not_eq_true', List.isEmpty_eq_false] at h
      refine ⟨(digRun l).1, c :: r, Or.inl (DigRunG_digRun h.1),
        (expPart_iff_ExpG _).mp h.2, ?_⟩
      have := digRun_append_eq l
      rw [hr] at this
      exact this.symm

theorem floatBody_of_NumLitG {l : List Char} (h : NumLitG l) : floatBody l = true := by
  obtain ⟨m, x, hm, hx, rfl⟩ := h
  have hxnds : noDigStart x := noDigStart_of_ExpG hx
  rcases hm with hdig | ⟨a, b, rfl, ha, hb, hnb⟩
  · have hrun : digRun (m ++ x) = (m, x) := digRun_complete hdig hxnds
    rcases hx with rfl | ⟨e, s, d, he, hs, hd, rfl⟩
    · rw [floatBody_nil_rest (by rw [hrun])]
      rw [hrun]
      simp [hdig.isEmpty_false, expPart]
    · rw [floatBody_cons_rest (show (digRun (m ++ _)).2 = e :: (s ++ d) by rw [hrun])
        (by rcases he with rfl | rfl <;> decide)]
      rw [hrun]
      simp only [hdig.isEmpty_false, Bool.not_false, Bool.true_and]
      exact (expPart_iff_ExpG _).mpr (Or.inr ⟨e, s, d, he, hs, hd, rfl⟩)
  · have hassoc : (a ++ '.' :: b) ++ x = a ++ '.' :: (b ++ x) := by
      simp [List.append_assoc]
    rw [hassoc]
    rcases ha with rfl | hda
    · have hbr : DigRunG b := by
        rcases hb with rfl | hb
        · exact absurd ⟨rfl, rfl⟩ hnb
        · exact hb
      have h0 : digRun ([] ++ '.' :: (b ++ x)) = ([], '.' :: (b ++ x)) := by
        rw [List.nil_append]
        exact digRun_cons_other _ (by decide)
      rw [List.nil_append] at h0 ⊢
      rw [floatBody_dot (by rw [h0])]
      rw [h0, digRun_complete hbr hxnds]
      simp [hbr.isEmpty_false, (expPart_iff_ExpG _).mpr hx]
    · have h0 : digRun (a ++ '.' :: (b ++ x)) = (a, '.' :: (b ++ x)) :=
        digRun_complete hda (noDigStart_cons _ (by decide) (by decide))
      rw [floatBody_dot (by rw [h0])]
      rw [h0]
      rcases hb with rfl | hdb
      · rcases hx with rfl | ⟨e, s, d, he, hs, hd, rfl⟩
        · simp [hda.isEmpty_false, digRun_nil, expPart]
        · rw [List.nil_append,
            digRun_cons_other (s ++ d) (by rcases he with rfl | rfl <;> decide)]
          simp only [hda.isEmpty_false, Bool.not_false, Bool.true_or, Bool.true_and]
          exact (expPart_iff_ExpG _).mpr (Or.inr ⟨e, s, d, he, hs, hd, rfl⟩)
      · rw [digRun_complete hdb hxnds]
        simp [hda.isEmpty_false, (expPart_iff_ExpG _).mpr hx]

/-! ## Assembling the full float-literal equivalence -/

theorem isWs_cases {c : Char} (h : isWs c = true) :
    c = ' ' ∨ c = '\t' ∨ c = '\n' ∨ c = '\r' ∨ c = '\x0b' ∨ c = '\x0c' := by
  simp only [isWs, Bool.or_eq_true, decide_eq_true_eq] at h
  tauto

theorem isWs_lowerChar {c : Char} (h : isWs c = true) : lowerChar c = c := by
  rcases isWs_cases h with rfl | rfl | rfl | rfl | rfl | rfl <;> decide

theorem digit_not_ws {c : Char} (h : c.isDigit = true) : isWs c = false := by
  cases hw : isWs c
  · rfl
  · rcases isWs_cases hw with rfl | rfl | rfl | rfl | rfl | rfl <;>
      exact absurd h (by decide)

theorem head_props {c : Char}
    (h : lowerChar c = 'i' ∨ lowerChar c = 'n' ∨ c.isDigit = true ∨ c = '.') :
    isWs c = false ∧ c ≠ '+' ∧ c ≠ '-' := by
  refine ⟨?_, ?_, ?_⟩
  · rcases h with h | h | h | rfl
    · cases hw : isWs c
      · rfl
      · rw [isWs_lowerChar hw] at h
        subst h
        exact absurd hw (by decide)
    · cases hw : isWs c
      · rfl
      · rw [isWs_lowerChar hw] at h
        subst h
        exact absurd hw (by decide)
    · exact digit_not_ws h
    · decide
  · rintro rfl
    rcases h with h | h | h | h <;> exact absurd h (by decide)
  · rintro rfl
    rcases h with h | h | h | h <;> exact absurd h (by decide)

theorem body_head {body : List Char} (h : SpecialG body ∨ NumLitG body) :
    ∃ c cs, body = c :: cs ∧ isWs c = false ∧ c ≠ '+' ∧ c ≠ '-' := by
  rcases h with h | h
  · rcases h with h | h | h
    · obtain ⟨c, cs, rfl, hc, -⟩ := List.map_eq_cons_iff.mp h
      exact ⟨c, cs, rfl, head_props (Or.inl hc)⟩
    · obtain ⟨c, cs, rfl, hc, -⟩ := List.map_eq_cons_iff.mp h
      exact ⟨c, cs, rfl, head_props (Or.inl hc)⟩
    · obtain ⟨c, cs, rfl, hc, -⟩ := List.map_eq_cons_iff.mp h
      exact ⟨c, cs, rfl, head_props (Or.inr (Or.inl hc))⟩
  · obtain ⟨m, x, hm, -, rfl⟩ := h
    rcases hm with ⟨c, t, rfl, hc, -⟩ | ⟨a, b, rfl, ha, -, -⟩
    · exact ⟨c, t ++ x, by simp, head_props (Or.inr (Or.inr (Or.inl hc)))⟩
    · rcases ha with rfl | ⟨c, t, rfl, hc, -⟩
      · exact ⟨'.', b ++ x, by simp, head_props (Or.inr (Or.inr (Or.inr rfl)))⟩
      · exact ⟨c, (t ++ '.' :: b) ++ x, by simp,
          head_props (Or.inr (Or.inr (Or.inl hc)))⟩

theorem DigTailG_last {t : List Char} (h : DigTailG t) :
    t = [] ∨ ∃ t' c, t = t' ++ [c] ∧ c.isDigit = true := by
  induction h with
  | nil => exact Or.inl rfl
  | dig c l hc _ ih =>
    rcases ih with rfl | ⟨t', c', rfl, hc'⟩
    · exact Or.inr ⟨[], c, rfl, hc⟩
    · exact Or.inr ⟨c :: t', c', rfl, hc'⟩
  | und c l hc _ ih =>
    rcases ih with rfl | ⟨t', c', rfl, hc'⟩
    · exact Or.inr ⟨['_'], c, rfl, hc⟩
    · exact Or.inr ⟨'_' :: c :: t', c', rfl, hc'⟩

theorem DigRunG_last {d : List Char} (h : DigRunG d) :
    ∃ t c, d = t ++ [c] ∧ c.isDigit = true := by
  obtain ⟨ch, t, rfl, hch, ht⟩ := h
  rcases DigTailG_last ht with rfl | ⟨t', c', rfl, hc'⟩
  · exact ⟨[], ch, rfl, hch⟩
  · exact ⟨ch :: t', c', rfl, hc'⟩

theorem special_last {body : List Char} (h : SpecialG body) :
    ∃ t c, body = t ++ [c] ∧ isWs c = false := by
  have step : ∀ (L : List Char) (x : Char), body.map lowerChar = L →
      L.getLast? = some x → isWs x = false →
      ∃ t c, body = t ++ [c] ∧ isWs c = false := by
    intro L x hL hlast hx
    have h1 : (body.map lowerChar).getLast? = some x := by rw [hL, hlast]
    rw [List.getLast?_map] at h1
    match hb : body.getLast? with
    | none => rw [hb] at h1; cases h1
    | some c =>
      rw [hb] at h1
      have hcx : lowerChar c = x := by simpa using h1
      obtain ⟨ys, rfl⟩ := List.getLast?_eq_some_iff.mp hb
      refine ⟨ys, c, rfl, ?_⟩
      cases hw : isWs c
      · rfl
      · rw [isWs_lowerChar hw] at hcx
        subst hcx
        rw [hx] at hw
        cases hw
  rcases h with h | h | h
  · exact step "inf".data 'f' h (by decide) (by decide)
  · exact step "infinity".data 'y' h (by decide) (by decide)
  · exact step "nan".data 'n' h (by decide) (by decide)

theorem body_last {body : List Char} (h : SpecialG body ∨ NumLitG body) :
    ∃ t c, body = t ++ [c] ∧ isWs c = false := by
  rcases h with h | h
  · exact special_last h
  · obtain ⟨m, x, hm, hx, rfl⟩ := h
    rcases hx with rfl | ⟨e, sg, d, he, hs, hd, rfl⟩
    · rw [List.append_nil]
      rcases hm with hdm | ⟨a, b, rfl, ha, hb, hnb⟩
      · obtain ⟨t, c, rfl, hc⟩ := DigRunG_last hdm
        exact ⟨t, c, rfl, digit_not_ws hc⟩
      · rcases hb with rfl | hdb
        · exact ⟨a, '.', rfl, by decide⟩
        · obtain ⟨t, c, rfl, hc⟩ := DigRunG_last hdb
          exact ⟨a ++ '.' :: t, c, by simp, digit_not_ws hc⟩
    · obtain ⟨t, c, rfl, hc⟩ := DigRunG_last hd
      exact ⟨m ++ e :: (sg ++ t), c, by simp, digit_not_ws hc⟩

theorem dropWhile_ws_append {w l : List Char} (hw : ∀ c ∈ w, isWs c = true) :
    List.dropWhile isWs (w ++ l) = List.dropWhile isWs l := by
  induction w with
  | nil => rfl
  | cons c w' ih =>
    rw [List.cons_append, List.dropWhile_cons, if_pos (hw c (by simp))]
    exact ih (fun c hc => hw c (by simp [hc]))

theorem dropWhile_ws_cons_false {c : Char} {l : List Char} (h : isWs c = false) :
    List.dropWhile isWs (c :: l) = c :: l := by
  rw [List.dropWhile_cons, if_neg (by simp [h])]

theorem stripWs_spec {w₁ sgn body w₂ : List Char}
    (hw₁ : ∀ c ∈ w₁, isWs c = true) (hsgn : SignG sgn)
    (hb : SpecialG body ∨ NumLitG body) (hw₂ : ∀ c ∈ w₂, isWs c = true) :
    stripWs (w₁ ++ sgn ++ body ++ w₂) = sgn ++ body := by
  obtain ⟨ch, cs, hhd, hwhd, -, -⟩ := body_head hb
  obtain ⟨tl, cl, hlast, hwl⟩ := body_last hb
  have hstep1 : List.dropWhile isWs (w₁ ++ sgn ++ body ++ w₂) =
      sgn ++ body ++ w₂ := by
    have hre : w₁ ++ sgn ++ body ++ w₂ = w₁ ++ (sgn ++ body ++ w₂) := by
      simp [List.append_assoc]
    rw [hre, dropWhile_ws_append hw₁]
    rcases hsgn with rfl | rfl | rfl
    · simp only [List.nil_append]
      rw [hhd, List.cons_append, dropWhile_ws_cons_false hwhd]
    · rw [List.append_assoc, List.singleton_append,
        dropWhile_ws_cons_false (by decide)]
    · rw [List.append_assoc, List.singleton_append,
        dropWhile_ws_cons_false (by decide)]
  unfold stripWs
  rw [hstep1]
  have hrev : (sgn ++ body ++ w₂).reverse =
      w₂.reverse ++ (body.reverse ++ sgn.reverse) := by
    simp [List.reverse_append, List.append_assoc]
  rw [hrev, dropWhile_ws_append (fun c hc => hw₂ c (List.mem_reverse.mp hc))]
  have hbodyrev : body.reverse = cl :: tl.reverse := by
    rw [hlast]
    simp
  rw [hbodyrev, List.cons_append, dropWhile_ws_cons_false hwl, ← List.cons_append,
    ← hbodyrev]
  simp

theorem dropSign_sgn_body {sgn body : List Char} (hsgn : SignG sgn)
    (hb : SpecialG body ∨ NumLitG body) : dropSign (sgn ++ body) = body := by
  rcases hsgn with rfl | rfl | rfl
  · rw [List.nil_append]
    obtain ⟨ch, cs, rfl, -, hp, hm⟩ := body_head hb
    exact if_neg (by rintro (rfl | rfl) <;> simp_all)
  · rw [List.singleton_append]
    simp [dropSign]
  · rw [List.singleton_append]
    simp [dropSign]

theorem not_SpecialG_nil : ¬SpecialG [] := by
  rintro (h | h | h) <;> exact absurd h (by decide)

theorem not_NumLitG_nil : ¬NumLitG [] := by
  rintro ⟨m, x, hm, -, heq⟩
  have hmn : m = [] := (List.append_eq_nil.mp heq.symm).1
  subst hmn
  rcases hm with ⟨c, t, hct, -, -⟩ | ⟨a, b, hab, -, -, -⟩
  · cases hct
  · exact absurd hab.symm (by simp)

theorem pyFloatCore_iff (t : List Char) :
    pyFloatCore t = true ↔
      (SpecialG (dropSign t) ∨ NumLitG (dropSign t)) := by
  unfold pyFloatCore
  simp only [Bool.or_eq_true, decide_eq_true_eq]
  constructor
  · rintro (((h | h) | h) | h)
    · exact Or.inl (Or.inl h)
    · exact Or.inl (Or.inr (Or.inl h))
    · exact Or.inl (Or.inr (Or.inr h))
    · exact Or.inr (NumLitG_of_floatBody h)
  · rintro ((h | h | h) | h)
    · exact Or.inl (Or.inl (Or.inl h))
    · exact Or.inl (Or.inl (Or.inr h))
    · exact Or.inl (Or.inr h)
    · exact Or.inr (floatBody_of_NumLitG h)

theorem pyFloatAsciiAccepts_iff_FloatLit (s : String) :
    pyFloatAsciiAccepts s = true ↔ FloatLit s := by
  constructor
  · intro h
    unfold pyFloatAsciiAccepts at h
    have hsplit2 : s.data.dropWhile isWs =
        stripWs s.data ++ ((s.data.dropWhile isWs).reverse.takeWhile isWs).reverse := by
      unfold stripWs
      have hr := (List.takeWhile_append_dropWhile isWs
        (s.data.dropWhile isWs).reverse).symm
      have h2 := congrArg List.reverse hr
      rw [List.reverse_reverse, List.reverse_append] at h2
      exact h2
    generalize hT : stripWs s.data = t at h hsplit2
    have hsplit1 : s.data = s.data.takeWhile isWs ++ s.data.dropWhile isWs :=
      (List.takeWhile_append_dropWhile isWs s.data).symm
    have hw₁ws : ∀ c ∈ s.data.takeWhile isWs, isWs c = true := fun c hc =>
      List.mem_takeWhile_imp hc
    have hw₂ws : ∀ c ∈ ((s.data.dropWhile isWs).reverse.takeWhile isWs).reverse,
        isWs c = true := fun c hc =>
      List.mem_takeWhile_imp (List.mem_reverse.mp hc)
    have hcore := (pyFloatCore_iff t).mp h
    have hdata : s.data = s.data.takeWhile isWs ++
        (t ++ ((s.data.dropWhile isWs).reverse.takeWhile isWs).reverse) := by
      conv_lhs => rw [hsplit1, hsplit2]
    match t, hcore, hdata with
    | [], hcore, hdata =>
      rcases hcore with hsp | hnl
      · exact absurd hsp not_SpecialG_nil
      · exact absurd hnl not_NumLitG_nil
    | c :: rest, hcore, hdata =>
      by_cases hcp : c = '+'
      · subst hcp
        refine ⟨s.data.takeWhile isWs, ['+'], rest,
          ((s.data.dropWhile isWs).reverse.takeWhile isWs).reverse,
          hw₁ws, Or.inr (Or.inl rfl), ?_, hw₂ws, ?_⟩
        · have hds : dropSign ('+' :: rest) = rest := by simp [dropSign]
          rwa [hds] at hcore
        · exact hdata.trans (by simp only [List.append_assoc, List.cons_append, List.singleton_append, List.nil_append])
      · by_cases hcm : c = '-'
        · subst hcm
          refine ⟨s.data.takeWhile isWs, ['-'], rest,
            ((s.data.dropWhile isWs).reverse.takeWhile isWs).reverse,
            hw₁ws, Or.inr (Or.inr rfl), ?_, hw₂ws, ?_⟩
          · have hds : dropSign ('-' :: rest) = rest := by simp [dropSign]
            rwa [hds] at hcore
          · exact hdata.trans (by simp only [List.append_assoc, List.cons_append, List.singleton_append, List.nil_append])
        · refine ⟨s.data.takeWhile isWs, [], c :: rest,
            ((s.data.dropWhile isWs).reverse.takeWhile isWs).reverse,
            hw₁ws, Or.inl rfl, ?_, hw₂ws, ?_⟩
          · have hcnd : ¬(c = '+' ∨ c = '-') := by
              rintro (rfl | rfl)
              · exact hcp rfl
              · exact hcm rfl
            have hds : dropSign (c :: rest) = c :: rest := if_neg hcnd
            rwa [hds] at hcore
          · exact hdata.trans (by simp only [List.append_assoc, List.cons_append, List.singleton_append, List.nil_append])
  · rintro ⟨w₁, sgn, body, w₂, hw₁, hsgn, hb, hw₂, hdata⟩
    unfold pyFloatAsciiAccepts
    rw [hdata, stripWs_spec hw₁ hsgn hb hw₂]
    rw [pyFloatCore_iff, dropSign_sgn_body hsgn hb]
    exact hb

theorem pyFloatAccepts_iff_FloatLit (s : String) :
    pyFloatAccepts s = true ↔ FloatLit (pyTransformDecimal s) :=
  pyFloatAsciiAccepts_iff_FloatLit (pyTransformDecimal s)

end EnvTypeGen

namespace EnvTypeGen

/-! ## Lemmas about strings and error messages -/

theorem strEq_of_data {a b : String} (h : a.data = b.data) : a = b := by
  cases a; cases b; exact congrArg String.mk h

theorem strCancelLeft (p : String) {a b : String} (h : p ++ a = p ++ b) : a = b := by
  apply strEq_of_data
  have hd : p.data ++ a.data = p.data ++ b.data := by
    rw [← String.data_append, ← String.data_append, h]
  exact List.append_cancel_left hd

theorem strCancelRight (s : String) {a b : String} (h : a ++ s = b ++ s) : a = b := by
  apply strEq_of_data
  have hd : a.data ++ s.data = b.data ++ s.data := by
    rw [← String.data_append, ← String.data_append, h]
  exact List.append_cancel_right hd

theorem missingMsg_inj {env f n n' : String}
    (h : missingMsg env n f = missingMsg env n' f) : n = n' := by
  have h1 := strCancelLeft (envPre env ++ "missing required variable '")
    (a := n ++ ("' in " ++ f)) (b := n' ++ ("' in " ++ f))
    (by simpa [missingMsg, String.append_assoc] using h)
  exact strCancelRight _ h1

theorem extraMsg_inj {env f n n' : String}
    (h : extraMsg env n f = extraMsg env n' f) : n = n' := by
  have h1 := strCancelLeft (envPre env ++ "extra variable '")
    (a := n ++ ("' present in " ++ f)) (b := n' ++ ("' present in " ++ f))
    (by simpa [extraMsg, String.append_assoc] using h)
  exact strCancelRight _ h1

theorem missingMsg_ne_invalidMsg (env n f n' e : String) :
    missingMsg env n f ≠ invalidMsg env n' e := by
  intro h
  have h1 : ("missing required variable '" ++ (n ++ ("' in " ++ f))) =
      ("variable '" ++ (n' ++ ("' invalid: " ++ e))) :=
    strCancelLeft (envPre env) (by simpa [missingMsg, invalidMsg] using h)
  have hm : ("missing required variable '" ++ (n ++ ("' in " ++ f))).data.head? =
      some 'm' := rfl
  have hv : ("variable '" ++ (n' ++ ("' invalid: " ++ e))).data.head? = some 'v' := rfl
  rw [h1, hv] at hm
  simp at hm

theorem missingMsg_ne_extraMsg (env n f n' f' : String) :
    missingMsg env n f ≠ extraMsg env n' f' := by
  intro h
  have h1 : ("missing required variable '" ++ (n ++ ("' in " ++ f))) =
      ("extra variable '" ++ (n' ++ ("' present in " ++ f'))) :=
    strCancelLeft (envPre env) (by simpa [missingMsg, extraMsg] using h)
  have hm : ("missing required variable '" ++ (n ++ ("' in " ++ f))).data.head? =
      some 'm' := rfl
  have he : ("extra variable '" ++ (n' ++ ("' present in " ++ f'))).data.head? =
      some 'e' := rfl
  rw [h1, he] at hm
  simp at hm

theorem invalidMsg_ne_extraMsg (env n e n' f : String) :
    invalidMsg env n e ≠ extraMsg env n' f := by
  intro h
  have h1 : ("variable '" ++ (n ++ ("' invalid: " ++ e))) =
      ("extra variable '" ++ (n' ++ ("' present in " ++ f))) :=
    strCancelLeft (envPre env) (by simpa [invalidMsg, extraMsg] using h)
  have hv : ("variable '" ++ (n ++ ("' invalid: " ++ e))).data.head? = some 'v' := rfl
  have he : ("extra variable '" ++ (n' ++ ("' present in " ++ f))).data.head? =
      some 'e' := rfl
  rw [h1, he] at hv
  simp at hv

/-! ## Lemmas about the dict embedding -/

theorem dictKeys_dictInsert (d : Dict α) (k : String) (v : α) :
    dictKeys (dictInsert d k v) =
      if k ∈ dictKeys d then dictKeys d else dictKeys d ++ [k] := by
  unfold dictInsert
  have hany : (d.any fun p => p.1 == k) = true ↔ k ∈ dictKeys d := by
    rw [List.any_eq_true]
    unfold dictKeys
    rw [List.mem_map]
    simp only [beq_iff_eq]
  by_cases hk : k ∈ dictKeys d
  · rw [if_pos (hany.mpr hk), if_pos hk]
    unfold dictKeys
    rw [List.map_map]
    apply List.map_congr_left
    intro p _
    by_cases hp : p.1 = k <;> simp [hp]
  · rw [if_neg (fun hc => hk (hany.mp hc)), if_neg hk]
    simp [dictKeys]

theorem mem_dictKeys_dictInsert (d : Dict α) (k k' : String) (v : α) :
    k' ∈ dictKeys (dictInsert d k v) ↔ k' ∈ dictKeys d ∨ k' = k := by
  rw [dictKeys_dictInsert]
  split
  · rename_i hmem
    constructor
    · exact fun h => Or.inl h
    · rintro (h | rfl)
      · exact h
      · exact hmem
  · simp

theorem dictKeys_dictInsert_nodup (d : Dict α) (k : String) (v : α)
    (h : (dictKeys d).Nodup) : (dictKeys (dictInsert d k v)).Nodup := by
  rw [dictKeys_dictInsert]
  split
  · exact h
  · rename_i hk
    simp [List.nodup_append, h, hk]

theorem dictOfVars_aux_keys (vs : List VariableDefinition) :
    ∀ d : Dict VariableDefinition,
      (∀ k, k ∈ dictKeys (vs.foldl (fun d v => dictInsert d v.name v) d) ↔
        k ∈ dictKeys d ∨ k ∈ vs.map (fun v => v.name)) ∧
      ((dictKeys d).Nodup →
        (dictKeys (vs.foldl (fun d v => dictInsert d v.name v) d)).Nodup) := by
  induction vs with
  | nil => intro d; simp
  | cons v rest ih =>
    intro d
    constructor
    · intro k
      rw [List.foldl_cons, (ih (dictInsert d v.name v)).1 k,
        mem_dictKeys_dictInsert]
      simp only [List.map_cons, List.mem_cons]
      tauto
    · intro hd
      rw [List.foldl_cons]
      exact (ih (dictInsert d v.name v)).2 (dictKeys_dictInsert_nodup d v.name v hd)

theorem mem_dictKeys_dictOfVars (vs : List VariableDefinition) (k : String) :
    k ∈ dictKeys (dictOfVars vs) ↔ k ∈ vs.map (fun v => v.name) := by
  have h := (dictOfVars_aux_keys vs []).1 k
  rw [dictOfVars, h]
  simp [dictKeys]

theorem dictOfVars_keys_nodup (vs : List VariableDefinition) :
    (dictKeys (dictOfVars vs)).Nodup := by
  have h := (dictOfVars_aux_keys vs []).2
  rw [dictOfVars]
  exact h (by simp [dictKeys])

theorem dictInsert_entry_fst {d : Dict VariableDefinition} {v : VariableDefinition}
    (h : ∀ e ∈ d, e.1 = e.2.name) :
    ∀ e ∈ dictInsert d v.name v, e.1 = e.2.name := by
  intro e he
  unfold dictInsert at he
  split at he
  · rw [List.mem_map] at he
    obtain ⟨p, hp, hpe⟩ := he
    by_cases hc : p.1 = v.name
    · simp only [hc, beq_self_eq_true, if_pos] at hpe
      subst hpe; rfl
    · rw [if_neg (by simpa using hc)] at hpe
      subst hpe; exact h p hp
  · rw [List.mem_append] at he
    rcases he with he | he
    · exact h e he
    · simp only [List.mem_singleton] at he
      subst he; rfl

theorem mem_dictOfVars_fst (vs : List VariableDefinition) :
    ∀ e ∈ dictOfVars vs, e.1 = e.2.name := by
  suffices h : ∀ d : Dict VariableDefinition, (∀ e ∈ d, e.1 = e.2.name) →
      ∀ e ∈ vs.foldl (fun d v => dictInsert d v.name v) d, e.1 = e.2.name by
    exact h [] (by simp)
  induction vs with
  | nil => intro d hd; simpa using hd
  | cons v rest ih =>
    intro d hd
    rw [List.foldl_cons]
    exact ih (dictInsert d v.name v) (dictInsert_entry_fst hd)

theorem dict_value_unique {d : Dict α} (hnd : (dictKeys d).Nodup) {k : String}
    {a b : α} (h1 : (k, a) ∈ d) (h2 : (k, b) ∈ d) : a = b := by
  induction d with
  | nil => cases h1
  | cons e rest ih =>
    simp only [dictKeys, List.map_cons, List.nodup_cons] at hnd
    rcases List.mem_cons.mp h1 with he1 | ht1 <;>
      rcases List.mem_cons.mp h2 with he2 | ht2
    · rw [← he2] at he1
      exact (Prod.ext_iff.mp he1).2
    · exfalso; apply hnd.1
      rw [← he1]
      exact List.mem_map.mpr ⟨(k, b), ht2, rfl⟩
    · exfalso; apply hnd.1
      rw [← he2]
      exact List.mem_map.mpr ⟨(k, a), ht1, rfl⟩
    · exact ih hnd.2 ht1 ht2

theorem dictGet?_eq_none {d : Dict α} {k : String} :
    dictGet? d k = none ↔ k ∉ dictKeys d := by
  unfold dictGet? dictKeys
  rw [Option.map_eq_none', List.find?_eq_none]
  simp only [beq_iff_eq]
  constructor
  · intro h hk
    obtain ⟨p, hp, hfst⟩ := List.mem_map.mp hk
    exact h p hp hfst
  · intro h p hp hc
    exact h (List.mem_map.mpr ⟨p, hp, hc⟩)

theorem dictGetD_of_not_mem {d : Dict α} {k : String} (dflt : α)
    (h : k ∉ dictKeys d) : dictGetD d k dflt = dflt := by
  unfold dictGetD
  rw [dictGet?_eq_none.mpr h]
  rfl

/-! ## Lemmas about `pySorted` -/

theorem pySorted_sorted (l : List String) : List.Sorted (· ≤ ·) (pySorted l) :=
  List.sorted_insertionSort _ l

theorem pySorted_perm (l : List String) : (pySorted l).Perm l :=
  List.perm_insertionSort _ l

theorem pySorted_mem {a : String} {l : List String} : a ∈ pySorted l ↔ a ∈ l :=
  (pySorted_perm l).mem_iff

theorem pySorted_nodup {l : List String} (h : l.Nodup) : (pySorted l).Nodup :=
  ((pySorted_perm l).nodup_iff).mpr h

theorem pySorted_sorted_lt {l : List String} (h : l.Nodup) :
    List.Sorted (· < ·) (pySorted l) := by
  have hs := pySorted_sorted l
  have hn : List.Pairwise (· ≠ ·) (pySorted l) := pySorted_nodup h
  exact (hs.and hn).imp (fun hab => lt_of_le_of_ne hab.1 hab.2)

theorem count_map_inj {α : Type} [DecidableEq α] {f : α → String}
    (hf : ∀ a b, f a = f b → a = b) (k : α) (l : List α) :
    (l.map f).count (f k) = l.count k := by
  induction l with
  | nil => rfl
  | cons a t ih =>
    rw [List.map_cons, List.count_cons, List.count_cons, ih]
    by_cases ha : a = k
    · subst ha; simp
    · have : ¬(f a = f k) := fun hc => ha (hf a k hc)
      simp [ha, this]

/-! ## Lemmas about the environment validator -/

theorem declaredEntryErrors_shape (jsonOk : String → Bool)
    (envName envFile : String) (provided : Dict String)
    (e : String × VariableDefinition) :
    ∀ m ∈ declaredEntryErrors jsonOk envName envFile provided e,
      (m = missingMsg envName e.1 envFile ∧ dictGet? provided e.1 = none ∧
        e.2.required = true ∧ e.2.default = none) ∨
      (∃ exc, m = invalidMsg envName e.1 exc ∧ dictGet? provided e.1 ≠ none) := by
  intro m hm
  unfold declaredEntryErrors at hm
  match hp : dictGet? provided e.1 with
  | none =>
    rw [hp] at hm
    have hm' : m ∈ (if e.2.required = true ∧ e.2.default = none then
        [missingMsg envName e.1 envFile] else []) := hm
    split at hm'
    · rename_i hcond
      simp only [List.mem_singleton] at hm'
      exact Or.inl ⟨hm', rfl, hcond.1, hcond.2⟩
    · cases hm'
  | some raw =>
    rw [hp] at hm
    have hm' : m ∈ (match _parse_value jsonOk raw e.2 with
      | .error exc => [invalidMsg envName e.1 exc]
      | .ok _ => []) := hm
    match hpv : _parse_value jsonOk raw e.2 with
    | .error exc =>
      rw [hpv] at hm'
      simp only [List.mem_singleton] at hm'
      exact Or.inr ⟨exc, hm', by simp [hp]⟩
    | .ok v =>
      rw [hpv] at hm'
      cases hm'

theorem declaredEntryErrors_missing (jsonOk : String → Bool)
    (envName envFile : String) (provided : Dict String)
    (e : String × VariableDefinition) (hp : dictGet? provided e.1 = none)
    (hr : e.2.required = true) (hd : e.2.default = none) :
    declaredEntryErrors jsonOk envName envFile provided e =
      [missingMsg envName e.1 envFile] := by
  unfold declaredEntryErrors
  rw [hp]
  rw [if_pos ⟨hr, hd⟩]

theorem declaredEntryErrors_absent_ok (jsonOk : String → Bool)
    (envName envFile : String) (provided : Dict String)
    (e : String × VariableDefinition) (hp : dictGet? provided e.1 = none)
    (hc : ¬(e.2.required = true ∧ e.2.default = none)) :
    declaredEntryErrors jsonOk envName envFile provided e = [] := by
  unfold declaredEntryErrors
  rw [hp]
  rw [if_neg hc]

theorem checkVarsGo_mem {envName : String} {v : VariableDefinition}
    {vars : List VariableDefinition} (hv : v ∈ vars) {m : String}
    (hm : m ∈ v.validate envName) :
    ∀ seen, m ∈ checkVarsGo envName vars seen := by
  induction vars with
  | nil => cases hv
  | cons w rest ih =>
    intro seen
    rcases List.mem_cons.mp hv with rfl | hv'
    · unfold checkVarsGo
      rw [List.mem_append, List.mem_append]
      exact Or.inr (Or.inl hm)
    · unfold checkVarsGo
      rw [List.mem_append, List.mem_append]
      exact Or.inr (Or.inr (ih hv' _))

/-! ## Reduction of `_parse_value` by declared type -/

theorem _parse_value_boolean (jsonOk : String → Bool) (value : String)
    {d : VariableDefinition} (hd : d.type = "boolean") :
    _parse_value jsonOk value d = .ok (.vbool (_parse_bool value)) := by
  unfold _parse_value
  rw [hd]
  rfl

theorem _parse_value_number (jsonOk : String → Bool) (value : String)
    {d : VariableDefinition} (hd : d.type = "number") :
    _parse_value jsonOk value d =
      (if pyFloatAccepts value then .ok (.vnum value)
       else .error (floatErrMsg value)) := by
  unfold _parse_value
  rw [hd]
  rfl

theorem _parse_value_enum (jsonOk : String → Bool) (value : String)
    {d : VariableDefinition} (hd : d.type = "enum") :
    _parse_value jsonOk value d =
      (if enumRejects d.enum value then
        .error (enumErrMsg value (d.enum.getD []))
      else .ok (.vstr value)) := by
  unfold _parse_value
  rw [hd]
  rfl

theorem _parse_value_duration (jsonOk : String → Bool) (value : String)
    {d : VariableDefinition} (hd : d.type = "duration") :
    _parse_value jsonOk value d =
      (if endsWithS value then
        (if pyFloatAccepts (strDropLast value) then .ok (.vnum (strDropLast value))
         else .error (floatErrMsg (strDropLast value)))
      else
        (if pyFloatAccepts value then .ok (.vnum value)
         else .error (floatErrMsg value))) := by
  unfold _parse_value
  rw [hd]
  rfl

/-! ## The claims -/

/-- Claim C1: For every string `raw` and every `VariableDefinition` with
`type = "boolean"`, `_parse_value` always succeeds, returns `true` exactly
when the lowercased raw string is one of `"true","1","yes","y","on"`, and
returns `false` for every other string. -/
theorem C1_boolean_parse (jsonOk : String → Bool) (raw : String)
    (d : VariableDefinition) (hd : d.type = "boolean") :
    _parse_value jsonOk raw d = .ok (.vbool (_parse_bool raw)) ∧
      (_parse_value jsonOk raw d = .ok (.vbool true) ↔
        pyLower raw ∈ (["true", "1", "yes", "y", "on"] : List String)) ∧
      (pyLower raw ∉ (["true", "1", "yes", "y", "on"] : List String) →
        _parse_value jsonOk raw d = .ok (.vbool false)) := by
  have hb := _parse_value_boolean jsonOk raw hd
  refine ⟨hb, ?_, ?_⟩
  · rw [hb]
    simp [_parse_bool]
  · intro h
    rw [hb]
    simp [_parse_bool, h]

/-- Witness for C1: with a boolean variable, `"TRUE"` parses to `true` and
`"maybe"` parses to `false`. -/
theorem C1_boolean_parse_witness :
    _parse_value noJson "TRUE" { name := "F", type := "boolean" } =
      .ok (.vbool true) ∧
    _parse_value noJson "maybe" { name := "F", type := "boolean" } =
      .ok (.vbool false) :=
  ⟨(C1_boolean_parse noJson "TRUE" { name := "F", type := "boolean" } rfl).2.1.mpr
      (by decide),
   (C1_boolean_parse noJson "maybe" { name := "F", type := "boolean" } rfl).2.2
      (by decide)⟩

/-- Claim C6: For a variable of type `"enum"` with a nonempty enum list,
parsing succeeds returning the raw string iff it occurs (case-sensitively)
in the enum list; otherwise it fails with the message naming the allowed
set. -/
theorem C6_enum_parse (jsonOk : String → Bool) (raw : String)
    (d : VariableDefinition) (hd : d.type = "enum") (es : List String)
    (he : d.enum = some es) (hne : es ≠ []) :
    (raw ∈ es → _parse_value jsonOk raw d = .ok (.vstr raw)) ∧
    (raw ∉ es → _parse_value jsonOk raw d = .error (enumErrMsg raw es)) := by
  have hb := _parse_value_enum jsonOk raw hd
  constructor
  · intro hmem
    rw [hb]
    rw [if_neg]
    unfold enumRejects
    rw [he]
    simp [hmem]
  · intro hmem
    rw [hb]
    rw [if_pos, he]
    · rfl
    · unfold enumRejects
      rw [he]
      simp [hne, List.isEmpty_iff, hmem]

/-- Witness for C6: with `enum = ["a","b"]`, `"a"` parses, `"c"` fails with
the message naming `["a","b"]`. -/
theorem C6_enum_parse_witness :
    _parse_value noJson "a" { name := "E", type := "enum", enum := some ["a", "b"] } =
      .ok (.vstr "a") ∧
    _parse_value noJson "c" { name := "E", type := "enum", enum := some ["a", "b"] } =
      .error (enumErrMsg "c" ["a", "b"]) :=
  ⟨(C6_enum_parse noJson "a"
      { name := "E", type := "enum", enum := some ["a", "b"] } rfl ["a", "b"] rfl
      (by decide)).1 (by decide),
   (C6_enum_parse noJson "c"
      { name := "E", type := "enum", enum := some ["a", "b"] } rfl ["a", "b"] rfl
      (by decide)).2 (by decide)⟩

/-- Claim C7: For a variable of type `"number"`, parsing succeeds iff the
raw string is a floating-point literal: iff, after `float`'s
decimal-digit-and-space-to-ASCII transform, it matches the declarative
grammar `FloatLit` (proved equivalent to the acceptance of Python's
`float`); it fails for every other string. -/
theorem C7_number_parse (jsonOk : String → Bool) (raw : String)
    (d : VariableDefinition) (hd : d.type = "number") :
    (∃ v, _parse_value jsonOk raw d = .ok v) ↔
      FloatLit (pyTransformDecimal raw) := by
  rw [_parse_value_number jsonOk raw hd]
  rw [← pyFloatAccepts_iff_FloatLit]
  cases hacc : pyFloatAccepts raw
  · simp
  · simp

/-- Witness for C7: `" -1.5e3 "` parses as a number, `"abc"` does not, and
the Arabic-Indic digit string `"١٢٣"` parses through the transform. -/
theorem C7_number_parse_witness :
    ((∃ v, _parse_value noJson " -1.5e3 " { name := "N", type := "number" } =
      .ok v) ↔ FloatLit (pyTransformDecimal " -1.5e3 ")) ∧
    ((∃ v, _parse_value noJson "abc" { name := "N", type := "number" } =
      .ok v) ↔ FloatLit (pyTransformDecimal "abc")) ∧
    ((∃ v, _parse_value noJson "\u0661\u0662\u0663" { name := "N", type := "number" } =
      .ok v) ↔ FloatLit (pyTransformDecimal "\u0661\u0662\u0663")) :=
  ⟨C7_number_parse noJson " -1.5e3 " { name := "N", type := "number" } rfl,
   C7_number_parse noJson "abc" { name := "N", type := "number" } rfl,
   C7_number_parse noJson "\u0661\u0662\u0663" { name := "N", type := "number" } rfl⟩

/-- Claim C8: For a variable of type `"duration"`: when the raw string ends
in `'s'`, parsing succeeds iff the string without its final character is a
floating-point literal (after `float`'s decimal-digit-and-space transform);
otherwise parsing succeeds iff the whole string is one. -/
theorem C8_duration_parse (jsonOk : String → Bool) (raw : String)
    (d : VariableDefinition) (hd : d.type = "duration") :
    (endsWithS raw = true →
      ((∃ v, _parse_value jsonOk raw d = .ok v) ↔
        FloatLit (pyTransformDecimal (strDropLast raw)))) ∧
    (endsWithS raw = false →
      ((∃ v, _parse_value jsonOk raw d = .ok v) ↔
        FloatLit (pyTransformDecimal raw))) := by
  have hb := _parse_value_duration jsonOk raw hd
  constructor
  · intro hends
    rw [hb, if_pos hends, ← pyFloatAccepts_iff_FloatLit]
    cases hacc : pyFloatAccepts (strDropLast raw)
    · simp
    · simp
  · intro hends
    rw [hb, if_neg (by simp [hends]), ← pyFloatAccepts_iff_FloatLit]
    cases hacc : pyFloatAccepts raw
    · simp
    · simp

/-- Witness for C8: `"2.5s"` parses via its prefix `"2.5"`; `"2.5"` parses
whole; the Arabic-Indic `"١٢٣s"` parses via the transform of its prefix. -/
theorem C8_duration_parse_witness :
    ((∃ v, _parse_value noJson "2.5s" { name := "D", type := "duration" } =
      .ok v) ↔ FloatLit (pyTransformDecimal (strDropLast "2.5s"))) ∧
    ((∃ v, _parse_value noJson "2.5" { name := "D", type := "duration" } =
      .ok v) ↔ FloatLit (pyTransformDecimal "2.5")) ∧
    ((∃ v, _parse_value noJson "\u0661\u0662\u0663s" { name := "D", type := "duration" } =
      .ok v) ↔ FloatLit (pyTransformDecimal (strDropLast "\u0661\u0662\u0663s"))) :=
  ⟨(C8_duration_parse noJson "2.5s" { name := "D", type := "duration" } rfl).1
      (by decide),
   (C8_duration_parse noJson "2.5" { name := "D", type := "duration" } rfl).2
      (by decide),
   (C8_duration_parse noJson "\u0661\u0662\u0663s" { name := "D", type := "duration" } rfl).1
      (by decide)⟩

/-- Claim C10: For a variable whose `type` is none of the seven recognized
names, `_parse_value` is total on the dispatch: it returns the raw string
unchanged and never fails. -/
theorem C10_unknown_type_total (jsonOk : String → Bool) (raw : String)
    (d : VariableDefinition) (hd : d.type ∉ SUPPORTED_TYPES) :
    _parse_value jsonOk raw d = .ok (.vstr raw) := by
  have hne : ∀ t : String, t ∈ SUPPORTED_TYPES → d.type ≠ t := by
    intro t ht hc
    exact hd (hc ▸ ht)
  unfold _parse_value
  rw [if_neg (hne "string" (by decide)), if_neg (hne "number" (by decide)),
    if_neg (hne "boolean" (by decide)), if_neg (hne "enum" (by decide)),
    if_neg (hne "url" (by decide)), if_neg (hne "duration" (by decide)),
    if_neg (hne "json" (by decide))]

/-- Witness for C10: type `"mystery"` is passed through unchanged. -/
theorem C10_unknown_type_total_witness :
    _parse_value noJson "anything" { name := "W", type := "mystery" } =
      .ok (.vstr "anything") :=
  C10_unknown_type_total noJson "anything" { name := "W", type := "mystery" }
    (by decide)

/-- Claim C5: A configuration holding a variable that is required and also
carries a default fails schema validation, with a message identifying that
variable; and in general `validate_schema`'s `ok` is `true` iff its error
list is empty. -/
theorem C5_required_default_conflict :
    (∀ (c : Config) (env : String) (vars : List VariableDefinition)
        (v : VariableDefinition),
        (env, vars) ∈ c.environments → v ∈ vars → v.required = true →
        v.default ≠ none →
        (validate_schema c).1 = false ∧
          reqDefaultMsg env v.name ∈ (validate_schema c).2) ∧
    (∀ c : Config, (validate_schema c).1 = true ↔ (validate_schema c).2 = []) := by
  constructor
  · intro c env vars v henv hv hreq hdef
    have hmsg : reqDefaultMsg env v.name ∈ v.validate env := by
      unfold VariableDefinition.validate
      rw [List.mem_append]
      right
      rw [if_pos ⟨hdef, hreq⟩]
      simp
    have h3 : reqDefaultMsg env v.name ∈ c.validate := by
      unfold Config.validate
      rw [List.mem_append]
      exact Or.inl (List.mem_flatMap.mpr ⟨(env, vars), henv, checkVarsGo_mem hv hmsg []⟩)
    exact ⟨List.isEmpty_eq_false.mpr (List.ne_nil_of_mem h3), h3⟩
  · intro c
    exact List.isEmpty_iff

/-- Witness for C5: the fixture schema with `required = true` and
`default = "x"` on variable `X` fails validation and reports `X`. -/
theorem C5_required_default_conflict_witness :
    (validate_schema cfgReqDefault).1 = false ∧
      reqDefaultMsg "dev" "X" ∈ (validate_schema cfgReqDefault).2 :=
  C5_required_default_conflict.1 cfgReqDefault "dev"
    [{ name := "X", type := "string", required := true, default := some "x" }]
    { name := "X", type := "string", required := true, default := some "x" }
    (by decide) (by decide) rfl (by decide)

/-- Two strictly-sorted string lists with the same members are equal. -/
theorem sorted_lt_eq_of_mem_iff {l₁ l₂ : List String}
    (h₁ : List.Sorted (· < ·) l₁) (h₂ : List.Sorted (· < ·) l₂)
    (hm : ∀ a, a ∈ l₁ ↔ a ∈ l₂) : l₁ = l₂ := by
  haveI ha : IsAntisymm String (· < ·) := ⟨fun a b h1 h2 => absurd h1 (asymm h2)⟩
  haveI hi : IsIrrefl String (· < ·) := ⟨fun a => lt_irrefl a⟩
  refine List.eq_of_perm_of_sorted ?_ h₁ h₂
  refine List.perm_of_nodup_nodup_toFinset_eq h₁.nodup h₂.nodup ?_
  ext a
  simp only [List.mem_toFinset]
  exact hm a

/-- The sorted set difference of the declared names of two variable lists,
as computed inside `diff_environments` and `validate_env`. -/
theorem diffNames_spec (A B : List VariableDefinition) :
    List.Sorted (· < ·)
      (pySorted (((dictKeys (dictOfVars A)).dedup).filter
        (fun k => decide (k ∉ dictKeys (dictOfVars B))))) ∧
    ∀ n, n ∈ pySorted (((dictKeys (dictOfVars A)).dedup).filter
        (fun k => decide (k ∉ dictKeys (dictOfVars B)))) ↔
      (n ∈ A.map (fun v => v.name) ∧ n ∉ B.map (fun v => v.name)) := by
  constructor
  · exact pySorted_sorted_lt (List.Nodup.filter _ (List.nodup_dedup _))
  · intro n
    rw [pySorted_mem, List.mem_filter, List.mem_dedup, mem_dictKeys_dictOfVars,
      decide_eq_true_iff, mem_dictKeys_dictOfVars]

/-- Claim C2: `diff_environments` returns exactly one message per name in the
symmetric difference of the declared name sets: first the names of the left
environment missing on the right, sorted, then the names of the right
environment missing on the left, sorted; equal name sets yield the empty
list regardless of any other differences between same-named variables. -/
theorem C2_diff_environments (config : Config) (leftEnv rightEnv : String) :
    (∃ l₁ l₂ : List String,
      List.Sorted (· < ·) l₁ ∧ List.Sorted (· < ·) l₂ ∧
      (∀ n, n ∈ l₁ ↔
        (n ∈ (dictGetD config.environments leftEnv []).map (fun v => v.name) ∧
          n ∉ (dictGetD config.environments rightEnv []).map (fun v => v.name))) ∧
      (∀ n, n ∈ l₂ ↔
        (n ∈ (dictGetD config.environments rightEnv []).map (fun v => v.name) ∧
          n ∉ (dictGetD config.environments leftEnv []).map (fun v => v.name))) ∧
      diff_environments config leftEnv rightEnv =
        l₁.map (fun n => diffMsg n leftEnv rightEnv) ++
          l₂.map (fun n => diffMsg n rightEnv leftEnv)) ∧
    ((∀ n, n ∈ (dictGetD config.environments leftEnv []).map (fun v => v.name) ↔
        n ∈ (dictGetD config.environments rightEnv []).map (fun v => v.name)) →
      diff_environments config leftEnv rightEnv = []) := by
  obtain ⟨hs₁, hm₁⟩ := diffNames_spec (dictGetD config.environments leftEnv [])
    (dictGetD config.environments rightEnv [])
  obtain ⟨hs₂, hm₂⟩ := diffNames_spec (dictGetD config.environments rightEnv [])
    (dictGetD config.environments leftEnv [])
  constructor
  · exact ⟨_, _, hs₁, hs₂, hm₁, hm₂, rfl⟩
  · intro heq
    have h₁ : pySorted (((dictKeys (dictOfVars (dictGetD config.environments leftEnv []))).dedup).filter
        (fun k => decide (k ∉ dictKeys (dictOfVars (dictGetD config.environments rightEnv []))))) = [] := by
      rw [List.eq_nil_iff_forall_not_mem]
      intro n hn
      obtain ⟨hin, hout⟩ := (hm₁ n).mp hn
      exact hout ((heq n).mp hin)
    have h₂ : pySorted (((dictKeys (dictOfVars (dictGetD config.environments rightEnv []))).dedup).filter
        (fun k => decide (k ∉ dictKeys (dictOfVars (dictGetD config.environments leftEnv []))))) = [] := by
      rw [List.eq_nil_iff_forall_not_mem]
      intro n hn
      obtain ⟨hin, hout⟩ := (hm₂ n).mp hn
      exact hout ((heq n).mpr hin)
    show (pySorted _).map _ ++ (pySorted _).map _ = []
    rw [h₁, h₂]
    rfl

/-- Witness for C2: diffing an environment against itself yields no drift. -/
theorem C2_diff_environments_witness :
    diff_environments cfgFix "production" "production" = [] :=
  (C2_diff_environments cfgFix "production" "production").2 (fun _ => Iff.rfl)

/-- Claim C9: An environment name absent from `config.environments` is
treated by both `validate_env` and `diff_environments` as an environment
declaring no variables: `validate_env` reports nothing but one extra-variable
error per provided key, and `diff_environments` (in either argument order)
reports every variable of the other named environment as missing from the
unknown one. -/
theorem C9_unknown_environment (jsonOk : String → Bool) (config : Config)
    (envName envFile other : String) (provided : Dict String)
    (h : envName ∉ dictKeys config.environments) :
    (∃ ex : List String, List.Sorted (· < ·) ex ∧
      (∀ k, k ∈ ex ↔ k ∈ dictKeys provided) ∧
      validate_env jsonOk config envName envFile provided =
        ex.map (fun k => extraMsg envName k envFile)) ∧
    (∃ l : List String, List.Sorted (· < ·) l ∧
      (∀ n, n ∈ l ↔
        n ∈ (dictGetD config.environments other []).map (fun v => v.name)) ∧
      diff_environments config other envName =
        l.map (fun n => diffMsg n other envName) ∧
      diff_environments config envName other =
        l.map (fun n => diffMsg n other envName)) := by
  have hempty : dictGetD config.environments envName ([] : List VariableDefinition) = [] :=
    dictGetD_of_not_mem _ h
  have hfilter2 : ∀ w : List String,
      w.filter (fun k => decide
        (k ∉ dictKeys (dictOfVars ([] : List VariableDefinition)))) = w := by
    intro w
    rw [List.filter_eq_self]
    intro a _
    rw [decide_eq_true_iff]
    intro hc
    rw [mem_dictKeys_dictOfVars] at hc
    simp at hc
  constructor
  · refine ⟨pySorted ((dictKeys provided).dedup), ?_, ?_, ?_⟩
    · exact pySorted_sorted_lt (List.nodup_dedup _)
    · intro k
      rw [pySorted_mem, List.mem_dedup]
    · show (dictOfVars (dictGetD config.environments envName [])).flatMap _ ++
        (pySorted (((dictKeys provided).dedup).filter _)).map _ = _
      rw [hempty, hfilter2]
      rfl
  · refine ⟨pySorted (((dictKeys (dictOfVars
        (dictGetD config.environments other []))).dedup).filter
        (fun k => decide
          (k ∉ dictKeys (dictOfVars (dictGetD config.environments envName []))))), ?_, ?_, ?_, ?_⟩
    · exact pySorted_sorted_lt (List.Nodup.filter _ (List.nodup_dedup _))
    · intro n
      rw [pySorted_mem, List.mem_filter, List.mem_dedup, mem_dictKeys_dictOfVars]
      constructor
      · exact fun hp => hp.1
      · intro hp
        refine ⟨hp, ?_⟩
        rw [decide_eq_true_iff, hempty]
        intro hc
        rw [mem_dictKeys_dictOfVars] at hc
        simp at hc
    · show (pySorted _).map _ ++ (pySorted _).map _ = _
      rw [hempty]
      have hzero : ((dictKeys (dictOfVars ([] : List VariableDefinition))).dedup).filter
          (fun k => decide
            (k ∉ dictKeys (dictOfVars (dictGetD config.environments other [])))) = [] := rfl
      rw [hzero]
      simp [pySorted, List.insertionSort]
    · show (pySorted _).map _ ++ (pySorted _).map _ = _
      rw [hempty]
      have hzero : ((dictKeys (dictOfVars ([] : List VariableDefinition))).dedup).filter
          (fun k => decide
            (k ∉ dictKeys (dictOfVars (dictGetD config.environments other [])))) = [] := rfl
      rw [hzero, hfilter2]
      simp [pySorted, List.insertionSort]

/-- A strictly sorted string list whose members are exactly `b` is `[b]`. -/
theorem sorted_lt_singleton {ex : List String} {b : String}
    (hs : List.Sorted (· < ·) ex) (hm : ∀ k, k ∈ ex ↔ k = b) : ex = [b] := by
  match ex, hs with
  | [], _ => exact absurd ((hm b).mpr rfl) (by simp)
  | [a], _ => rw [(hm a).mp (by simp)]
  | a :: c :: t, hs =>
    have ha := (hm a).mp (by simp)
    have hc := (hm c).mp (by simp)
    have hlt : a < c := (List.sorted_cons.mp hs).1 c (by simp)
    rw [ha, hc] at hlt
    exact absurd hlt (lt_irrefl b)

/-- Witness for C9: with the unknown environment `nosuch`, the provided
key is reported as an extra variable. -/
theorem C9_unknown_environment_witness :
    validate_env noJson cfgFix "nosuch" ".env" [("B", "1")] =
      [extraMsg "nosuch" "B" ".env"] := by
  obtain ⟨⟨ex, hsort, hmem, heq⟩, -⟩ :=
    C9_unknown_environment noJson cfgFix "nosuch" ".env" "production"
      [("B", "1")] (by decide)
  have hex : ex = ["B"] := by
    refine sorted_lt_singleton hsort ?_
    intro k
    rw [hmem k]
    simp [dictKeys]
  rw [heq, hex]
  rfl

/-- Claim C3: The validator emits the missing-required-variable error for a
declared variable exactly when its name is absent from the provided
mapping, it is required, and it has no default; an absent variable that is
optional or has a default contributes no error (its loop-body yields the
empty message list, so it is in particular never parsed). -/
theorem C3_missing_required (jsonOk : String → Bool) (config : Config)
    (envName envFile : String) (provided : Dict String) (name : String)
    (defn : VariableDefinition)
    (hmem : (name, defn) ∈ dictOfVars (dictGetD config.environments envName [])) :
    (missingMsg envName name envFile ∈
        validate_env jsonOk config envName envFile provided ↔
      (dictGet? provided name = none ∧ defn.required = true ∧
        defn.default = none)) ∧
    (dictGet? provided name = none →
      ¬(defn.required = true ∧ defn.default = none) →
      declaredEntryErrors jsonOk envName envFile provided (name, defn) = []) := by
  constructor
  · constructor
    · intro hin
      simp only [validate_env] at hin
      rw [List.mem_append] at hin
      rcases hin with hin | hin
      · obtain ⟨e, he, hm⟩ := List.mem_flatMap.mp hin
        rcases declaredEntryErrors_shape jsonOk envName envFile provided e _ hm with
          ⟨heq, hnone, hreq, hdefault⟩ | ⟨exc, heq, -⟩
        · have hname : name = e.1 := missingMsg_inj heq
          have hentry : (name, e.2) ∈ dictOfVars (dictGetD config.environments envName []) := by
            rw [hname]
            exact he
          have hde : defn = e.2 :=
            dict_value_unique (dictOfVars_keys_nodup _) hmem hentry
          rw [hname, hde]
          exact ⟨hnone, hreq, hdefault⟩
        · exact absurd heq (missingMsg_ne_invalidMsg envName name envFile e.1 exc)
      · obtain ⟨k, _, heq⟩ := List.mem_map.mp hin
        exact absurd heq.symm (missingMsg_ne_extraMsg envName name envFile k envFile)
    · rintro ⟨hnone, hreq, hdefault⟩
      simp only [validate_env]
      rw [List.mem_append]
      left
      refine List.mem_flatMap.mpr ⟨(name, defn), hmem, ?_⟩
      rw [declaredEntryErrors_missing jsonOk envName envFile provided (name, defn)
        hnone hreq hdefault]
      simp
  · intro hnone hcond
    exact declaredEntryErrors_absent_ok jsonOk envName envFile provided
      (name, defn) hnone hcond

/-- Witness for C3: in the fixture schema, the required `API_URL` missing
from an empty provided mapping is reported, and the optional-with-default
`FEATURE` contributes no error. -/
theorem C3_missing_required_witness :
    missingMsg "development" "API_URL" ".env" ∈
      validate_env noJson cfgFix "development" ".env" [] ∧
    declaredEntryErrors noJson "development" ".env" [] ("FEATURE", varFeature) = [] :=
  ⟨(C3_missing_required noJson cfgFix "development" ".env" [] "API_URL"
      varApiUrl (by decide)).1.mpr ⟨rfl, rfl, rfl⟩,
   (C3_missing_required noJson cfgFix "development" ".env" [] "FEATURE"
      varFeature (by decide)).2 rfl (by simp [varFeature])⟩

/-- Claim C4: The validator emits exactly one extra-variable error per
provided key that is not a declared variable name; these errors are sorted
lexicographically by key and come after all errors produced for declared
variables. -/
theorem C4_extra_variables (jsonOk : String → Bool) (config : Config)
    (envName envFile : String) (provided : Dict String) :
    ∃ ex : List String, List.Sorted (· < ·) ex ∧
      (∀ k, k ∈ ex ↔ (k ∈ dictKeys provided ∧
        k ∉ (dictGetD config.environments envName []).map (fun v => v.name))) ∧
      validate_env jsonOk config envName envFile provided =
        (dictOfVars (dictGetD config.environments envName [])).flatMap
          (declaredEntryErrors jsonOk envName envFile provided) ++
          ex.map (fun k => extraMsg envName k envFile) ∧
      (∀ k, k ∈ dictKeys provided →
        k ∉ (dictGetD config.environments envName []).map (fun v => v.name) →
        (validate_env jsonOk config envName envFile provided).count
          (extraMsg envName k envFile) = 1) := by
  refine ⟨pySorted (((dictKeys provided).dedup).filter
      (fun k => decide (k ∉ dictKeys (dictOfVars
        (dictGetD config.environments envName []))))), ?_, ?_, rfl, ?_⟩
  · exact pySorted_sorted_lt (List.Nodup.filter _ (List.nodup_dedup _))
  · intro k
    rw [pySorted_mem, List.mem_filter, List.mem_dedup, decide_eq_true_iff,
      mem_dictKeys_dictOfVars]
  · intro k hk hnd
    have hnodup : (pySorted (((dictKeys provided).dedup).filter
        (fun k => decide (k ∉ dictKeys (dictOfVars
          (dictGetD config.environments envName [])))))).Nodup :=
      pySorted_nodup (List.Nodup.filter _ (List.nodup_dedup _))
    have hkmem : k ∈ pySorted (((dictKeys provided).dedup).filter
        (fun k => decide (k ∉ dictKeys (dictOfVars
          (dictGetD config.environments envName []))))) := by
      rw [pySorted_mem, List.mem_filter, List.mem_dedup, decide_eq_true_iff,
        mem_dictKeys_dictOfVars]
      exact ⟨hk, hnd⟩
    show ((dictOfVars (dictGetD config.environments envName [])).flatMap
        (declaredEntryErrors jsonOk envName envFile provided) ++
        (pySorted _).map (fun k => extraMsg envName k envFile)).count
        (extraMsg envName k envFile) = 1
    rw [List.count_append]
    have hzero : ((dictOfVars (dictGetD config.environments envName [])).flatMap
        (declaredEntryErrors jsonOk envName envFile provided)).count
        (extraMsg envName k envFile) = 0 := by
      rw [List.count_eq_zero]
      intro hin
      obtain ⟨e, _, hm⟩ := List.mem_flatMap.mp hin
      rcases declaredEntryErrors_shape jsonOk envName envFile provided e _ hm with
        ⟨heq, -, -, -⟩ | ⟨exc, heq, -⟩
      · exact absurd heq.symm (missingMsg_ne_extraMsg envName e.1 envFile k envFile)
      · exact absurd heq.symm (invalidMsg_ne_extraMsg envName e.1 exc k envFile)
    rw [hzero]
    have hinj : ∀ a b : String,
        extraMsg envName a envFile = extraMsg envName b envFile → a = b :=
      fun a b hab => extraMsg_inj hab
    rw [count_map_inj hinj]
    rw [List.count_eq_one_of_mem hnodup hkmem]

/-- Witness for C4: the undeclared key `EXTRA` yields exactly one
extra-variable error. -/
theorem C4_extra_variables_witness :
    (validate_env noJson cfgFix "development" ".env" [("EXTRA", "1")]).count
      (extraMsg "development" "EXTRA" ".env") = 1 := by
  obtain ⟨ex, -, -, -, hcount⟩ :=
    C4_extra_variables noJson cfgFix "development" ".env" [("EXTRA", "1")]
  exact hcount "EXTRA" (by decide) (by decide)

end EnvTypeGen
